import Mathlib

/-!
Verification of the golden-model triangle rasterizer
(`gold/rasterizer.c` of the Rasterization-Hardware-Accelerator repository).

The C code is shallowly embedded: every function of the source file becomes a
Lean definition over unbounded integers (`Int` for C `int`/`long` values,
`Nat` for the unsigned byte/short values of the hash).  Places where machine
width matters are modelled explicitly:

* `floor_ss` computes `val & (0xFFFFFFFF << k)`.  On the two-complement
  machine of the source, AND-ing with that mask clears the low `k` bits,
  which equals `val - val % 2^k` for the always-nonnegative `%` on `Int`
  (rounding toward negative infinity).  The embedding uses that form.
* the 40-bit words of `jitter_sample` are built from the low 64 bits of the
  two-complement representation (`emod 2^64`), and bytes are extracted by
  shift/mask exactly as the little-endian byte layout of the source reads
  them (the design notes of the project prescribe this portable reading of
  the type-punned store).
* the C `for (v = lo; v <= hi; v += step)` loop is embedded as the list of
  visited values `lo, lo+step, ...` (empty when `lo > hi`); a non-positive
  `step` would make the C loop run forever, which the total model maps to
  the empty list — all theorems that depend on the walk assume the
  documented Config invariant `ss_i = 2^(r_shift - ss_w_lg2) > 0`.
* the external side effect `process_fragment` is modelled by returning the
  list of delivered `(hit_location, subsample, fragment)` records; the
  nullable `ZBuff*` argument becomes a `Bool` saying whether a buffer is
  present.
-/

namespace Rasterizer

/-- Vertex of a triangle: fixed-point position `x`, `y`, depth `z` and color
channels `R`, `G`, `B` (C `int` fields, modelled as unbounded integers). -/
structure Vertex where
  x : Int
  y : Int
  z : Int
  R : Int
  G : Int
  B : Int
  deriving DecidableEq, Repr

/-- Triangle: exactly three vertices, ordered (the C code stores them in the
array `v[3]`; here they are the fields `v0`, `v1`, `v2`). -/
structure Triangle where
  v0 : Vertex
  v1 : Vertex
  v2 : Vertex
  deriving DecidableEq, Repr

/-- Sample point: integer `x`, `y` in fixed-point units. -/
structure Sample where
  x : Int
  y : Int
  deriving DecidableEq, Repr

/-- Screen extent in fixed-point units. -/
structure Screen where
  width : Int
  height : Int
  deriving DecidableEq, Repr

/-- Subsampling configuration: `r_shift` fractional bits, `ss_w_lg2` the log2
subsample resolution, `ss_i` the stride between subsample centers.  The shift
amounts are C `int` values that the code only ever uses as small nonnegative
shift counts, so they are modelled as `Nat`. -/
structure Config where
  r_shift : Nat
  ss_w_lg2 : Nat
  ss_i : Int
  deriving DecidableEq, Repr

/-- Axis-aligned bounding box with a validity flag. -/
structure BoundingBox where
  lower_left : Sample
  upper_right : Sample
  valid : Bool
  deriving DecidableEq, Repr

/-- Fragment delivered to the depth/color buffer. -/
structure Fragment where
  z : Int
  R : Int
  G : Int
  B : Int
  deriving DecidableEq, Repr

/-- One delivered `process_fragment` call: its `hit_location`, `subsample`
and `Fragment` arguments. -/
structure FragOut where
  hit_location : Sample
  subsample : Sample
  frag : Fragment
  deriving DecidableEq, Repr

/-- C source `min`: returns the minimum of two integers (returns `b` on
ties, as the source does). -/
def min (a b : Int) : Int := if a ≥ b then b else a

/-- C source `max`: returns the maximum of two integers (returns `a` on
ties, as the source does). -/
def max (a b : Int) : Int := if a ≥ b then a else b

/-- C source `floor_ss`: rounds a fixed-point value down to the subsample
grid by clearing the low `r_shift - ss_w_lg2` bits
(`val & (0xFFFFFFFF << (r_shift - ss_w_lg2))` in the source; clearing the
low `k` bits of a two-complement integer is subtracting the nonnegative
remainder `val % 2^k`). -/
def floor_ss (val : Int) (r_shift ss_w_lg2 : Nat) : Int :=
  val - val % ((2 : Int) ^ (r_shift - ss_w_lg2))

/-- C source `get_bounding_box` (`rastBBox_bbox_fix`): per-axis min/max over
the three vertices, snapped to the subsample grid with `floor_ss`, clipped
to the screen, with the validity check the source performs on the clipped
values. -/
def get_bounding_box (t : Triangle) (screen : Screen) (config : Config) : BoundingBox :=
  let ll_x := min (min t.v0.x t.v1.x) t.v2.x
  let ll_y := min (min t.v0.y t.v1.y) t.v2.y
  let ur_x := max (max t.v0.x t.v1.x) t.v2.x
  let ur_y := max (max t.v0.y t.v1.y) t.v2.y
  let ll_x := floor_ss ll_x config.r_shift config.ss_w_lg2
  let ll_y := floor_ss ll_y config.r_shift config.ss_w_lg2
  let ur_x := floor_ss ur_x config.r_shift config.ss_w_lg2
  let ur_y := floor_ss ur_y config.r_shift config.ss_w_lg2
  let ll_x := max ll_x 0
  let ll_y := max ll_y 0
  let ur_x := min ur_x screen.width
  let ur_y := min ur_y screen.height
  let valid := !(decide (ur_x < 0) || decide (ur_y < 0) ||
                 decide (ll_x > screen.width) || decide (ll_y > screen.height))
  ⟨⟨ll_x, ll_y⟩, ⟨ur_x, ur_y⟩, valid⟩

/-- C source `sample_test`: shift the vertices so the sample is the origin,
then test the sign of the 2D cross product of the endpoints of each directed
edge (non-strict for edges 0→1 and 2→0, strict for edge 1→2). -/
def sample_test (t : Triangle) (s : Sample) : Bool :=
  let v0_x := t.v0.x - s.x
  let v0_y := t.v0.y - s.y
  let v1_x := t.v1.x - s.x
  let v1_y := t.v1.y - s.y
  let v2_x := t.v2.x - s.x
  let v2_y := t.v2.y - s.y
  let b0 := decide (v0_x * v1_y - v1_x * v0_y ≤ 0)
  let b1 := decide (v1_x * v2_y - v2_x * v1_y < 0)
  let b2 := decide (v2_x * v0_y - v0_x * v2_y ≤ 0)
  b0 && b1 && b2

/-- C source `hash_40to8`: XOR-fold the five input bytes down to one byte,
then mask with `0x00ff >> shift`.  The byte values are `Nat` below 256; XOR
of such values stays below 256, as for the C `uchar` arithmetic. -/
def hash_40to8 (a0 a1 a2 a3 a4 : Nat) (shift : Nat) : Nat :=
  let mask := 255 >>> shift
  let b0 := a0 ^^^ a1
  let b1 := a1 ^^^ a2
  let b2 := a2 ^^^ a3
  let b3 := a3 ^^^ a4
  let c0 := b0 ^^^ b2
  let c1 := b1 ^^^ b3
  let d := c0 ^^^ c1
  d &&& mask

/-- Low 64 bits of the two-complement representation of an integer, as the
natural number a little-endian byte view of a C `long` exposes. -/
def low64 (v : Int) : Nat := (v % ((2 : Int) ^ 64)).toNat

/-- Byte `i` (little-endian) of a natural number. -/
def byte (w : Nat) (i : Nat) : Nat := (w >>> (8 * i)) &&& 255

/-- C source `jitter_sample`: drop the low 4 fractional bits of each
coordinate, pack the two coarsened coordinates into two words at a 20-bit
offset in both orders, hash the low five bytes of each word with
`hash_40to8`, and return the two hash values. -/
def jitter_sample (s : Sample) (ss_w_lg2 : Nat) : Sample :=
  let x := Int.fdiv s.x 16
  let y := Int.fdiv s.y 16
  let w1 := low64 (y * 2 ^ 20) ||| low64 x
  let w2 := low64 (x * 2 ^ 20) ||| low64 y
  let val_x := hash_40to8 (byte w1 0) (byte w1 1) (byte w1 2) (byte w1 3) (byte w1 4) ss_w_lg2
  let val_y := hash_40to8 (byte w2 0) (byte w2 1) (byte w2 2) (byte w2 3) (byte w2 4) ss_w_lg2
  ⟨(val_x : Int), (val_y : Int)⟩

/-- Values visited by the C loop `for (v = lo; v <= hi; v += step)` for a
positive step (a non-positive step never terminates in C; the documented
Config invariant makes the step a positive power of two). -/
def sampleList (lo hi step : Int) : List Int :=
  if 0 < step ∧ lo ≤ hi then
    (List.range (((hi - lo) / step).toNat + 1)).map (fun k : Nat => lo + step * (k : Int))
  else []

/-- Nominal sample points visited by the nested loops of
`rasterize_triangle`: the bounding-box walk at stride `ss_i`, x-major with y
innermost. -/
def candidates (t : Triangle) (screen : Screen) (config : Config) : List Sample :=
  let bbox := get_bounding_box t screen config
  (sampleList bbox.lower_left.x bbox.upper_right.x config.ss_i).flatMap (fun sx =>
    (sampleList bbox.lower_left.y bbox.upper_right.y config.ss_i).map (fun sy =>
      Sample.mk sx sy))

/-- Jittered position tested by the loop body: the jitter components are
shifted left by 2 (multiplied by 4) and added to the nominal sample. -/
def jittered_sample (s : Sample) (ss_w_lg2 : Nat) : Sample :=
  let jitter := jitter_sample s ss_w_lg2
  ⟨s.x + jitter.x * 4, s.y + jitter.y * 4⟩

/-- Arguments of the `process_fragment` call the loop body makes for a hit
at nominal sample `s`: `hit_location` is the sample shifted right by
`r_shift` (arithmetic shift, i.e. floor division), `subsample` is the
remainder divided by `ss_i` with C truncating division, and the fragment is
flat-shaded from vertex 0. -/
def emit_fragment (t : Triangle) (config : Config) (s : Sample) : FragOut :=
  let h_x := Int.fdiv s.x ((2 : Int) ^ config.r_shift)
  let h_y := Int.fdiv s.y ((2 : Int) ^ config.r_shift)
  let sub_x := Int.tdiv (s.x - h_x * 2 ^ config.r_shift) config.ss_i
  let sub_y := Int.tdiv (s.y - h_y * 2 ^ config.r_shift) config.ss_i
  ⟨⟨h_x, h_y⟩, ⟨sub_x, sub_y⟩, ⟨t.v0.z, t.v0.R, t.v0.G, t.v0.B⟩⟩

/-- C source `rasterize_triangle`: walk the bounding box, jitter each
candidate, test coverage, count hits, and (when a buffer is present)
deliver one fragment per hit in scan order.  Returns the hit count and the
list of delivered `process_fragment` calls. -/
def rasterize_triangle (t : Triangle) (z_present : Bool) (screen : Screen)
    (config : Config) : Int × List FragOut :=
  let hits := (candidates t screen config).filter (fun s =>
    sample_test t (jittered_sample s config.ss_w_lg2))
  let frags := if z_present then hits.map (emit_fragment t config) else []
  ((hits.length : Int), frags)

/-- Snapped (pre-clip) bounding-box corner: lower-left x. -/
def snapped_ll_x (t : Triangle) (config : Config) : Int :=
  floor_ss (min (min t.v0.x t.v1.x) t.v2.x) config.r_shift config.ss_w_lg2

/-- Snapped (pre-clip) bounding-box corner: lower-left y. -/
def snapped_ll_y (t : Triangle) (config : Config) : Int :=
  floor_ss (min (min t.v0.y t.v1.y) t.v2.y) config.r_shift config.ss_w_lg2

/-- Snapped (pre-clip) bounding-box corner: upper-right x. -/
def snapped_ur_x (t : Triangle) (config : Config) : Int :=
  floor_ss (max (max t.v0.x t.v1.x) t.v2.x) config.r_shift config.ss_w_lg2

/-- Snapped (pre-clip) bounding-box corner: upper-right y. -/
def snapped_ur_y (t : Triangle) (config : Config) : Int :=
  floor_ss (max (max t.v0.y t.v1.y) t.v2.y) config.r_shift config.ss_w_lg2

/-- Spec condition for an invalid box: the unclipped, grid-snapped box has
its upper-right negative on some axis or its lower-left beyond the screen
extent on some axis, i.e. the snapped box and the screen do not overlap. -/
def box_off_screen (t : Triangle) (screen : Screen) (config : Config) : Prop :=
  snapped_ur_x t config < 0 ∨ snapped_ur_y t config < 0 ∨
  snapped_ll_x t config > screen.width ∨ snapped_ll_y t config > screen.height

instance (t : Triangle) (screen : Screen) (config : Config) :
    Decidable (box_off_screen t screen config) := by
  unfold box_off_screen
  infer_instance

/-- Brute-force reference count from the spec: enumerate every
subsample-grid point of the whole screen and count those passing the edge
test `sample_test` directly (no bounding box, no jitter). -/
def brute_count (t : Triangle) (screen : Screen) (config : Config) : Nat :=
  (((sampleList 0 screen.width config.ss_i).flatMap (fun sx =>
    (sampleList 0 screen.height config.ss_i).map (fun sy =>
      Sample.mk sx sy))).filter (fun s => sample_test t s)).length

/-- Helper for concrete instances: a vertex at `(a, b)` with depth 7 and
color `(1, 2, 3)`. -/
def mkv (a b : Int) : Vertex := ⟨a, b, 7, 1, 2, 3⟩

/-- Concrete triangle `(0,0), (0,16), (16,0)` (clockwise, the covered
winding). -/
def exTri : Triangle := ⟨mkv 0 0, mkv 0 16, mkv 16 0⟩

/-- Concrete screen of extent 16 × 16 fixed-point units. -/
def exScreen : Screen := ⟨16, 16⟩

/-- Concrete configuration: 4 fractional bits, one sample per pixel. -/
def exConfig : Config := ⟨4, 0, 16⟩

/-- Concrete triangle with one vertex left of the screen, used for the
bounding-box validity analysis: vertices `(-6,0), (0,0), (0,0)`. -/
def bvTri : Triangle := ⟨mkv (-6) 0, mkv 0 0, mkv 0 0⟩

/-- Concrete screen with a negative width. -/
def bvScreen : Screen := ⟨-5, 7⟩

/-- Concrete configuration with no fractional bits (snapping is the
identity). -/
def bvConfig : Config := ⟨0, 0, 1⟩

/-- Concrete triangle `(0,0), (0,4), (4,0)` (clockwise). -/
def shTriA : Triangle := ⟨mkv 0 0, mkv 0 4, mkv 4 0⟩

/-- Concrete triangle `(0,4), (0,0), (-4,0)` (clockwise): shares the edge
from `(0,0)` to `(0,4)` with `shTriA`, traversed in the opposite direction,
and both triangles place that edge in a slot tested with a non-strict
comparison. -/
def shTriB : Triangle := ⟨mkv 0 4, mkv 0 0, mkv (-4) 0⟩

/-- Concrete triangle `(-4,0), (0,4), (0,0)` (clockwise): shares the edge
from `(0,0)` to `(0,4)` with `shTriA`, traversed in the opposite direction,
placed in the strictly-tested slot 1→2. -/
def shTriC : Triangle := ⟨mkv (-4) 0, mkv 0 4, mkv 0 0⟩

/-- Concrete triangle entirely left of the screen (every vertex has a
negative x coordinate). -/
def offTri : Triangle := ⟨mkv (-20) 5, mkv (-4) 8, mkv (-9) 2⟩

/-- Concrete triangle `(0,0), (0,3), (3,0)` (clockwise), inside the 4 × 4
screen below. -/
def jwTri : Triangle := ⟨mkv 0 0, mkv 0 3, mkv 3 0⟩

/-- Concrete screen of extent 4 × 4 fixed-point units. -/
def jwScreen : Screen := ⟨4, 4⟩

/-- Concrete configuration with `ss_w_lg2 = 8` (the jitter mask collapses
to zero there): 8 fractional bits, stride 1. -/
def jwConfig : Config := ⟨8, 8, 1⟩

/-- Triangle fully inside the screen: every vertex within
`[0, width] × [0, height]`. -/
def triangle_in_screen (t : Triangle) (screen : Screen) : Prop :=
  0 ≤ t.v0.x ∧ t.v0.x ≤ screen.width ∧ 0 ≤ t.v0.y ∧ t.v0.y ≤ screen.height ∧
  0 ≤ t.v1.x ∧ t.v1.x ≤ screen.width ∧ 0 ≤ t.v1.y ∧ t.v1.y ≤ screen.height ∧
  0 ≤ t.v2.x ∧ t.v2.x ≤ screen.width ∧ 0 ≤ t.v2.y ∧ t.v2.y ≤ screen.height

instance (t : Triangle) (screen : Screen) : Decidable (triangle_in_screen t screen) := by
  unfold triangle_in_screen
  infer_instance

end Rasterizer

namespace Rasterizer

/-- Restatement of `get_bounding_box` through the named snapped-corner
definitions (definitional). -/
theorem get_bounding_box_eq (t : Triangle) (screen : Screen) (config : Config) :
    get_bounding_box t screen config =
      ⟨⟨max (snapped_ll_x t config) 0, max (snapped_ll_y t config) 0⟩,
       ⟨min (snapped_ur_x t config) screen.width,
        min (snapped_ur_y t config) screen.height⟩,
       !(decide (min (snapped_ur_x t config) screen.width < 0) ||
         decide (min (snapped_ur_y t config) screen.height < 0) ||
         decide (max (snapped_ll_x t config) 0 > screen.width) ||
         decide (max (snapped_ll_y t config) 0 > screen.height))⟩ := rfl

/-- Restatement of `candidates` through the named snapped-corner
definitions (definitional). -/
theorem candidates_eq (t : Triangle) (screen : Screen) (config : Config) :
    candidates t screen config =
      (sampleList (max (snapped_ll_x t config) 0)
          (min (snapped_ur_x t config) screen.width) config.ss_i).flatMap (fun sx =>
        (sampleList (max (snapped_ll_y t config) 0)
            (min (snapped_ur_y t config) screen.height) config.ss_i).map (fun sy =>
          Sample.mk sx sy)) := rfl

/-- First argument bounds the source `min`. -/
theorem min_le_l (a b : Int) : min a b ≤ a := by
  unfold min; split <;> omega

/-- Second argument bounds the source `min`. -/
theorem min_le_r (a b : Int) : min a b ≤ b := by
  unfold min; split <;> omega

/-- The source `max` dominates its first argument. -/
theorem le_max_l (a b : Int) : a ≤ max a b := by
  unfold max; split <;> omega

/-- The source `max` dominates its second argument. -/
theorem le_max_r (a b : Int) : b ≤ max a b := by
  unfold max; split <;> omega

/-- Grid snapping never increases a value. -/
theorem floor_ss_le (val : Int) (r_shift ss_w_lg2 : Nat) :
    floor_ss val r_shift ss_w_lg2 ≤ val := by
  have hK : (0 : Int) < 2 ^ (r_shift - ss_w_lg2) := by positivity
  have hnn := Int.emod_nonneg val (ne_of_gt hK)
  unfold floor_ss; linarith

/-- An empty loop range yields no visited values. -/
theorem sampleList_nil_of_gt (lo hi step : Int) (h : hi < lo) :
    sampleList lo hi step = [] := by
  rw [sampleList, if_neg]
  rintro ⟨-, h2⟩
  omega

/-- Flat-mapping the empty list over any list yields the empty list. -/
theorem flatMap_const_nil (xs : List Int) :
    (xs.flatMap fun _ => ([] : List Sample)) = [] := by
  induction xs <;> simp_all

/-- Grid snapping expressed as a floor division. -/
theorem floor_ss_eq_mul (val : Int) (r_shift ss_w_lg2 : Nat) :
    floor_ss val r_shift ss_w_lg2 =
      2 ^ (r_shift - ss_w_lg2) * (val / 2 ^ (r_shift - ss_w_lg2)) := by
  have := Int.ediv_add_emod val ((2 : Int) ^ (r_shift - ss_w_lg2))
  unfold floor_ss
  linarith

/-- Snapped values are multiples of the grid cell width. -/
theorem floor_ss_emod (val : Int) (r_shift ss_w_lg2 : Nat) :
    floor_ss val r_shift ss_w_lg2 % ((2 : Int) ^ (r_shift - ss_w_lg2)) = 0 := by
  rw [floor_ss_eq_mul]
  exact Int.mul_emod_right _ _

/-- Membership in the loop-visit list: for a positive step, exactly the
values of the closed range that are reached from `lo` in whole steps. -/
theorem mem_sampleList {lo hi step x : Int} (hstep : 0 < step) :
    x ∈ sampleList lo hi step ↔ lo ≤ x ∧ x ≤ hi ∧ (x - lo) % step = 0 := by
  unfold sampleList
  by_cases hlh : lo ≤ hi
  · rw [if_pos ⟨hstep, hlh⟩, List.mem_map]
    constructor
    · rintro ⟨k, hk, hkx⟩
      have hkn : k < ((hi - lo) / step).toNat + 1 := List.mem_range.mp hk
      have hnn : 0 ≤ (hi - lo) / step := Int.ediv_nonneg (by omega) (le_of_lt hstep)
      have hk2 : (k : Int) ≤ (hi - lo) / step := by omega
      have hmul : step * (k : Int) ≤ step * ((hi - lo) / step) :=
        mul_le_mul_of_nonneg_left hk2 (le_of_lt hstep)
      have hq := Int.ediv_add_emod (hi - lo) step
      have hqn := Int.emod_nonneg (hi - lo) (ne_of_gt hstep)
      have hk0 : 0 ≤ step * (k : Int) :=
        mul_nonneg (le_of_lt hstep) (Int.natCast_nonneg k)
      refine ⟨by linarith [hkx], by linarith [hkx], ?_⟩
      have hsub : x - lo = step * (k : Int) := by linarith [hkx]
      rw [hsub]
      exact Int.mul_emod_right _ _
    · rintro ⟨hlox, hxhi, hmod⟩
      have hq : 0 ≤ (x - lo) / step := Int.ediv_nonneg (by omega) (le_of_lt hstep)
      have hid := Int.ediv_add_emod (x - lo) step
      rw [hmod, add_zero] at hid
      refine ⟨((x - lo) / step).toNat, List.mem_range.mpr ?_, ?_⟩
      · have hle : (x - lo) / step ≤ (hi - lo) / step :=
          Int.ediv_le_ediv hstep (by omega)
        omega
      · have hcast : ((((x - lo) / step).toNat : Int)) = (x - lo) / step :=
          Int.toNat_of_nonneg hq
        rw [hcast]
        linarith
  · rw [if_neg (fun hc => hlh hc.2)]
    simp only [List.not_mem_nil, false_iff]
    rintro ⟨h1, h2, -⟩
    omega

/-- The loop-visit list has no duplicates (positive step). -/
theorem sampleList_nodup (lo hi step : Int) (hstep : 0 < step) :
    (sampleList lo hi step).Nodup := by
  unfold sampleList
  split
  · refine List.Nodup.map ?_ (List.nodup_range _)
    intro a b hab
    have hab2 : lo + step * (a : Int) = lo + step * (b : Int) := hab
    have hm : step * (a : Int) = step * (b : Int) := by linarith
    have := mul_left_cancel₀ (ne_of_gt hstep) hm
    exact_mod_cast this
  · exact List.nodup_nil

/-- Membership in the x-major candidate product list. -/
theorem mem_pairs (xs ys : List Int) (s : Sample) :
    s ∈ (xs.flatMap fun sx => ys.map fun sy => Sample.mk sx sy) ↔
      s.x ∈ xs ∧ s.y ∈ ys := by
  cases s with
  | mk sx sy =>
    simp only [List.mem_flatMap, List.mem_map, Sample.mk.injEq]
    constructor
    · rintro ⟨x, hx, y, hy, rfl, rfl⟩
      exact ⟨hx, hy⟩
    · rintro ⟨hx, hy⟩
      exact ⟨sx, hx, sy, hy, rfl, rfl⟩

/-- The candidate product list of two duplicate-free lists is
duplicate-free. -/
theorem pairs_nodup (xs ys : List Int) (hx : xs.Nodup) (hy : ys.Nodup) :
    (xs.flatMap fun sx => ys.map fun sy => Sample.mk sx sy).Nodup := by
  induction xs with
  | nil => simp
  | cons x xs ih =>
    rw [List.flatMap_cons]
    rw [List.nodup_cons] at hx
    refine List.Nodup.append ?_ (ih hx.2) ?_
    · refine List.Nodup.map ?_ hy
      intro a b hab
      injection hab
    · intro s hs1 hs2
      obtain ⟨y, -, rfl⟩ := List.mem_map.mp hs1
      obtain ⟨x2, hx2, hs2⟩ := List.mem_flatMap.mp hs2
      obtain ⟨y2, -, heq⟩ := List.mem_map.mp hs2
      injection heq with h1 h2
      exact hx.1 (h1 ▸ hx2)

/-- Weighted-average bound, lower side: nonpositive weights `e0, e1, e2`
(one strictly negative) whose weighted combination of `v0, v1, v2` equals
`(e0+e1+e2) * x` force `x` above any common lower bound of the `v`. -/
theorem wavg_le (e0 e1 e2 x v0 v1 v2 m : Int)
    (h0 : e0 ≤ 0) (h1 : e1 < 0) (h2 : e2 ≤ 0)
    (hid : (e0 + e1 + e2) * x = e1 * v0 + e2 * v1 + e0 * v2)
    (hm0 : m ≤ v0) (hm1 : m ≤ v1) (hm2 : m ≤ v2) : m ≤ x := by
  by_contra hc
  push_neg at hc
  have hS : e0 + e1 + e2 < 0 := by linarith
  have p0 : 0 ≤ (-e1) * (v0 - m) := mul_nonneg (by linarith) (by linarith)
  have p1 : 0 ≤ (-e2) * (v1 - m) := mul_nonneg (by linarith) (by linarith)
  have p2 : 0 ≤ (-e0) * (v2 - m) := mul_nonneg (by linarith) (by linarith)
  have hgt : 0 < (e0 + e1 + e2) * (x - m) := mul_pos_of_neg_of_neg hS (by linarith)
  linarith [p0, p1, p2, hid, hgt]

/-- Weighted-average bound, upper side. -/
theorem le_wavg (e0 e1 e2 x v0 v1 v2 M : Int)
    (h0 : e0 ≤ 0) (h1 : e1 < 0) (h2 : e2 ≤ 0)
    (hid : (e0 + e1 + e2) * x = e1 * v0 + e2 * v1 + e0 * v2)
    (hM0 : v0 ≤ M) (hM1 : v1 ≤ M) (hM2 : v2 ≤ M) : x ≤ M := by
  have hneg : -M ≤ -x := by
    refine wavg_le e0 e1 e2 (-x) (-v0) (-v1) (-v2) (-M) h0 h1 h2 ?_
      (by linarith) (by linarith) (by linarith)
    linarith [hid]
  linarith

/-- Convex-hull bound: a sample covered by `sample_test` lies within the
per-axis min/max of the three vertices (the three nonpositive edge
functions are barycentric weights, and their sum equals twice the signed
area, which they force to be negative). -/
theorem sample_test_in_hull (t : Triangle) (s : Sample) (h : sample_test t s = true) :
    min (min t.v0.x t.v1.x) t.v2.x ≤ s.x ∧ s.x ≤ max (max t.v0.x t.v1.x) t.v2.x ∧
    min (min t.v0.y t.v1.y) t.v2.y ≤ s.y ∧ s.y ≤ max (max t.v0.y t.v1.y) t.v2.y := by
  simp only [sample_test, Bool.and_eq_true, decide_eq_true_eq] at h
  obtain ⟨⟨h0, h1⟩, h2⟩ := h
  have hidx : ((t.v0.x - s.x) * (t.v1.y - s.y) - (t.v1.x - s.x) * (t.v0.y - s.y)
      + ((t.v1.x - s.x) * (t.v2.y - s.y) - (t.v2.x - s.x) * (t.v1.y - s.y))
      + ((t.v2.x - s.x) * (t.v0.y - s.y) - (t.v0.x - s.x) * (t.v2.y - s.y))) * s.x
      = ((t.v1.x - s.x) * (t.v2.y - s.y) - (t.v2.x - s.x) * (t.v1.y - s.y)) * t.v0.x
      + ((t.v2.x - s.x) * (t.v0.y - s.y) - (t.v0.x - s.x) * (t.v2.y - s.y)) * t.v1.x
      + ((t.v0.x - s.x) * (t.v1.y - s.y) - (t.v1.x - s.x) * (t.v0.y - s.y)) * t.v2.x := by
    ring
  have hidy : ((t.v0.x - s.x) * (t.v1.y - s.y) - (t.v1.x - s.x) * (t.v0.y - s.y)
      + ((t.v1.x - s.x) * (t.v2.y - s.y) - (t.v2.x - s.x) * (t.v1.y - s.y))
      + ((t.v2.x - s.x) * (t.v0.y - s.y) - (t.v0.x - s.x) * (t.v2.y - s.y))) * s.y
      = ((t.v1.x - s.x) * (t.v2.y - s.y) - (t.v2.x - s.x) * (t.v1.y - s.y)) * t.v0.y
      + ((t.v2.x - s.x) * (t.v0.y - s.y) - (t.v0.x - s.x) * (t.v2.y - s.y)) * t.v1.y
      + ((t.v0.x - s.x) * (t.v1.y - s.y) - (t.v1.x - s.x) * (t.v0.y - s.y)) * t.v2.y := by
    ring
  have hmx0 : min (min t.v0.x t.v1.x) t.v2.x ≤ t.v0.x :=
    le_trans (min_le_l _ _) (min_le_l _ _)
  have hmx1 : min (min t.v0.x t.v1.x) t.v2.x ≤ t.v1.x :=
    le_trans (min_le_l _ _) (min_le_r _ _)
  have hmx2 : min (min t.v0.x t.v1.x) t.v2.x ≤ t.v2.x := min_le_r _ _
  have hMx0 : t.v0.x ≤ max (max t.v0.x t.v1.x) t.v2.x :=
    le_trans (le_max_l _ _) (le_max_l _ _)
  have hMx1 : t.v1.x ≤ max (max t.v0.x t.v1.x) t.v2.x :=
    le_trans (le_max_r _ _) (le_max_l _ _)
  have hMx2 : t.v2.x ≤ max (max t.v0.x t.v1.x) t.v2.x := le_max_r _ _
  have hmy0 : min (min t.v0.y t.v1.y) t.v2.y ≤ t.v0.y :=
    le_trans (min_le_l _ _) (min_le_l _ _)
  have hmy1 : min (min t.v0.y t.v1.y) t.v2.y ≤ t.v1.y :=
    le_trans (min_le_l _ _) (min_le_r _ _)
  have hmy2 : min (min t.v0.y t.v1.y) t.v2.y ≤ t.v2.y := min_le_r _ _
  have hMy0 : t.v0.y ≤ max (max t.v0.y t.v1.y) t.v2.y :=
    le_trans (le_max_l _ _) (le_max_l _ _)
  have hMy1 : t.v1.y ≤ max (max t.v0.y t.v1.y) t.v2.y :=
    le_trans (le_max_r _ _) (le_max_l _ _)
  have hMy2 : t.v2.y ≤ max (max t.v0.y t.v1.y) t.v2.y := le_max_r _ _
  exact ⟨wavg_le _ _ _ _ _ _ _ _ h0 h1 h2 hidx hmx0 hmx1 hmx2,
    le_wavg _ _ _ _ _ _ _ _ h0 h1 h2 hidx hMx0 hMx1 hMx2,
    wavg_le _ _ _ _ _ _ _ _ h0 h1 h2 hidy hmy0 hmy1 hmy2,
    le_wavg _ _ _ _ _ _ _ _ h0 h1 h2 hidy hMy0 hMy1 hMy2⟩

/-- Bound for the XOR-fold hash: the final AND with `0x00ff >> shift` keeps
the result below `2 ^ (8 - shift)` whenever `shift ≤ 8`. -/
theorem hash_40to8_lt (a0 a1 a2 a3 a4 shift : Nat) (h : shift ≤ 8) :
    hash_40to8 a0 a1 a2 a3 a4 shift < 2 ^ (8 - shift) := by
  have hm : (255 : Nat) >>> shift < 2 ^ (8 - shift) := by
    interval_cases shift <;> decide
  have hle : hash_40to8 a0 a1 a2 a3 a4 shift ≤ 255 >>> shift := by
    simp only [hash_40to8]
    exact Nat.and_le_right
  exact lt_of_le_of_lt hle hm

/-- Counterexample to C1 as stated: the sample `(1, 1)` lies inside the
clockwise triangle `exTri` and `sample_test` covers it, yet the claimed
sign reading — cross product NON-NEGATIVE for edges 0→1 and 2→0 — fails
there (all three cross products are negative; the code tests them for
being non-POSITIVE). -/
theorem sample_test_sign_cex :
    sample_test exTri ⟨1, 1⟩ = true ∧
    ¬ (0 ≤ (exTri.v0.x - 1) * (exTri.v1.y - 1) - (exTri.v1.x - 1) * (exTri.v0.y - 1) ∧
       (exTri.v1.x - 1) * (exTri.v2.y - 1) - (exTri.v2.x - 1) * (exTri.v1.y - 1) < 0 ∧
       0 ≤ (exTri.v2.x - 1) * (exTri.v0.y - 1) - (exTri.v0.x - 1) * (exTri.v2.y - 1)) := by
  decide

/-- C1 amended: `sample_test` returns true iff all three directed-edge
tests pass, where the 2D cross product of the shifted endpoints must be
non-POSITIVE (not non-negative) for edges 0→1 and 2→0 and strictly
negative for edge 1→2. -/
theorem sample_test_iff_edge_tests (t : Triangle) (s : Sample) :
    sample_test t s = true ↔
      ((t.v0.x - s.x) * (t.v1.y - s.y) - (t.v1.x - s.x) * (t.v0.y - s.y) ≤ 0 ∧
       (t.v1.x - s.x) * (t.v2.y - s.y) - (t.v2.x - s.x) * (t.v1.y - s.y) < 0 ∧
       (t.v2.x - s.x) * (t.v0.y - s.y) - (t.v0.x - s.x) * (t.v2.y - s.y) ≤ 0) := by
  simp [sample_test, Bool.and_eq_true, decide_eq_true_eq, and_assoc]

/-- C4: for `ss_w_lg2 ≤ 8` the two jitter values are unsigned values in
`[0, 2^(8 - ss_w_lg2))`, and two calls on identical coordinates return
identical results (the hash is a pure function of its arguments). -/
theorem jitter_sample_range_and_deterministic (s s2 : Sample) (ss_w_lg2 : Nat)
    (h : ss_w_lg2 ≤ 8) (hx : s2.x = s.x) (hy : s2.y = s.y) :
    (0 ≤ (jitter_sample s ss_w_lg2).x ∧
     (jitter_sample s ss_w_lg2).x < 2 ^ (8 - ss_w_lg2) ∧
     0 ≤ (jitter_sample s ss_w_lg2).y ∧
     (jitter_sample s ss_w_lg2).y < 2 ^ (8 - ss_w_lg2)) ∧
    jitter_sample s2 ss_w_lg2 = jitter_sample s ss_w_lg2 := by
  have hs : s2 = s := by
    cases s2; cases s; simp_all
  subst hs
  refine ⟨⟨?_, ?_, ?_, ?_⟩, rfl⟩
  · simp [jitter_sample]
  · simp only [jitter_sample]
    exact_mod_cast hash_40to8_lt _ _ _ _ _ _ h
  · simp [jitter_sample]
  · simp only [jitter_sample]
    exact_mod_cast hash_40to8_lt _ _ _ _ _ _ h

/-- Witness for C4 at the concrete input `(x, y, ss_w_lg2) = (35, -7, 3)`. -/
theorem jitter_sample_range_and_deterministic_witness :
    ((0 ≤ (jitter_sample ⟨35, -7⟩ 3).x ∧
      (jitter_sample ⟨35, -7⟩ 3).x < 2 ^ (8 - 3) ∧
      0 ≤ (jitter_sample ⟨35, -7⟩ 3).y ∧
      (jitter_sample ⟨35, -7⟩ 3).y < 2 ^ (8 - 3)) ∧
     jitter_sample ⟨35, -7⟩ 3 = jitter_sample ⟨35, -7⟩ 3) :=
  jitter_sample_range_and_deterministic ⟨35, -7⟩ ⟨35, -7⟩ 3 (by decide) rfl rfl

/-- C7: `floor_ss` returns a multiple of the grid cell width
`2^(r_shift - ss_w_lg2)` that is at most the input and within one cell of
it, and a value with a nonzero remainder (in particular any negative value
that is not grid-aligned) is strictly decreased, i.e. rounding is toward
negative infinity as for a two-complement arithmetic mask, never toward
zero. -/
theorem floor_ss_spec (val : Int) (r_shift ss_w_lg2 : Nat)
    (h1 : ss_w_lg2 ≤ r_shift) (h2 : r_shift < 32) :
    (∃ m : Int, floor_ss val r_shift ss_w_lg2 = 2 ^ (r_shift - ss_w_lg2) * m) ∧
    floor_ss val r_shift ss_w_lg2 ≤ val ∧
    val - floor_ss val r_shift ss_w_lg2 < 2 ^ (r_shift - ss_w_lg2) ∧
    (val % (2 : Int) ^ (r_shift - ss_w_lg2) ≠ 0 → floor_ss val r_shift ss_w_lg2 < val) := by
  have hK : (0 : Int) < 2 ^ (r_shift - ss_w_lg2) := by positivity
  have hident := Int.ediv_add_emod val ((2 : Int) ^ (r_shift - ss_w_lg2))
  have hnn := Int.emod_nonneg val (ne_of_gt hK)
  have hlt := Int.emod_lt_of_pos val hK
  refine ⟨⟨val / 2 ^ (r_shift - ss_w_lg2), ?_⟩, ?_, ?_, ?_⟩
  · unfold floor_ss; linarith
  · unfold floor_ss; linarith
  · unfold floor_ss; linarith
  · intro hne
    unfold floor_ss
    have : 0 < val % (2 : Int) ^ (r_shift - ss_w_lg2) := lt_of_le_of_ne hnn (Ne.symm hne)
    linarith

/-- Witness for C7 at the concrete input `(val, r_shift, ss_w_lg2) =
(-3, 4, 0)` (the result there is -16, one full cell below the input). -/
theorem floor_ss_spec_witness :
    (∃ m : Int, floor_ss (-3) 4 0 = 2 ^ (4 - 0) * m) ∧
    floor_ss (-3) 4 0 ≤ -3 ∧
    (-3 : Int) - floor_ss (-3) 4 0 < 2 ^ (4 - 0) ∧
    ((-3 : Int) % (2 : Int) ^ (4 - 0) ≠ 0 → floor_ss (-3) 4 0 < -3) :=
  floor_ss_spec (-3) 4 0 (by decide) (by decide)

/-- C8: the hit count does not depend on whether a buffer is present, and
with no buffer no `process_fragment` call is made at all. -/
theorem rasterize_buffer_independent (t : Triangle) (screen : Screen) (config : Config) :
    (rasterize_triangle t true screen config).1 =
      (rasterize_triangle t false screen config).1 ∧
    (rasterize_triangle t false screen config).2 = [] :=
  ⟨rfl, rfl⟩

/-- C9: every fragment delivered by `rasterize_triangle` carries the depth
and color of vertex 0 of the input triangle, whatever sample produced the
hit. -/
theorem fragment_flat_shaded (t : Triangle) (z_present : Bool) (screen : Screen)
    (config : Config) (fo : FragOut)
    (h : fo ∈ (rasterize_triangle t z_present screen config).2) :
    fo.frag = ⟨t.v0.z, t.v0.R, t.v0.G, t.v0.B⟩ := by
  simp only [rasterize_triangle] at h
  cases z_present with
  | false => simp at h
  | true =>
    simp only [if_pos, List.mem_map] at h
    obtain ⟨s, _, rfl⟩ := h
    rfl

/-- Witness for C9: the concrete run of `exTri` on `exScreen`/`exConfig`
delivers the fragment of the sample at the origin, and its payload is the
vertex-0 record. -/
theorem fragment_flat_shaded_witness :
    (emit_fragment exTri exConfig ⟨0, 0⟩).frag =
      ⟨exTri.v0.z, exTri.v0.R, exTri.v0.G, exTri.v0.B⟩ :=
  fragment_flat_shaded exTri true exScreen exConfig
    (emit_fragment exTri exConfig ⟨0, 0⟩) (by decide)

/-- Counterexample to C3 as stated: with the concrete screen of width -5
the code classifies the box of `bvTri` as invalid although its snapped,
unclipped corners satisfy none of the four claimed conditions (the code
tests the clipped corners, which differs from the claimed pre-clip test
when a screen extent is negative). -/
theorem bbox_validity_cex :
    (get_bounding_box bvTri bvScreen bvConfig).valid = false ∧
    ¬ box_off_screen bvTri bvScreen bvConfig := by
  decide

/-- C3 amended: for screens with nonnegative extent (the only screens the
data model describes), `valid = false` iff the unclipped, grid-snapped box
has a negative upper-right or a lower-left beyond the screen extent on some
axis; on such screens the post-clip test of the code coincides with the
pre-clip classification. -/
theorem bbox_validity_iff (t : Triangle) (screen : Screen) (config : Config)
    (hW : 0 ≤ screen.width) (hH : 0 ≤ screen.height) :
    ((get_bounding_box t screen config).valid = false ↔
      box_off_screen t screen config) := by
  rw [get_bounding_box_eq]
  unfold box_off_screen
  generalize snapped_ur_x t config = A
  generalize snapped_ur_y t config = B
  generalize snapped_ll_x t config = C
  generalize snapped_ll_y t config = D
  unfold min max
  split_ifs <;> simp <;> omega

/-- Witness for C3 (amended) at the concrete inputs `exTri`, `exScreen`,
`exConfig`. -/
theorem bbox_validity_iff_witness :
    ((get_bounding_box exTri exScreen exConfig).valid = false ↔
      box_off_screen exTri exScreen exConfig) :=
  bbox_validity_iff exTri exScreen exConfig (by decide) (by decide)

/-- C6: a triangle with every vertex left of the screen has a snapped box
off screen, and whenever the snapped box does not intersect the screen the
code reports `valid = false`, the nested sample walk visits no sample at
all (the clipped lower-left exceeds the clipped upper-right on some axis),
and the hit count is 0 with no fragment delivered. -/
theorem off_screen_no_hits (t : Triangle) (screen : Screen) (config : Config)
    (z_present : Bool) :
    ((t.v0.x < 0 ∧ t.v1.x < 0 ∧ t.v2.x < 0) → box_off_screen t screen config) ∧
    (box_off_screen t screen config →
      (get_bounding_box t screen config).valid = false ∧
      candidates t screen config = [] ∧
      rasterize_triangle t z_present screen config = (0, [])) := by
  constructor
  · rintro ⟨h0, h1, h2⟩
    have hmax : max (max t.v0.x t.v1.x) t.v2.x < 0 := by
      unfold max; split_ifs <;> omega
    exact Or.inl (lt_of_le_of_lt (floor_ss_le _ _ _) hmax)
  · intro hoff
    have hcand : candidates t screen config = [] := by
      rw [candidates_eq]
      rcases hoff with h | h | h | h
      · rw [sampleList_nil_of_gt _ _ _
          (lt_of_lt_of_le (lt_of_le_of_lt (min_le_l _ _) h) (le_max_r _ 0))]
        simp
      · rw [sampleList_nil_of_gt (max (snapped_ll_y t config) 0) _ _
          (lt_of_lt_of_le (lt_of_le_of_lt (min_le_l _ _) h) (le_max_r _ 0))]
        simp only [List.map_nil]
        exact flatMap_const_nil _
      · rw [sampleList_nil_of_gt _ _ _
          (lt_of_le_of_lt (min_le_r _ _) (lt_of_lt_of_le h (le_max_l _ 0)))]
        simp
      · rw [sampleList_nil_of_gt (max (snapped_ll_y t config) 0) _ _
          (lt_of_le_of_lt (min_le_r _ _) (lt_of_lt_of_le h (le_max_l _ 0)))]
        simp only [List.map_nil]
        exact flatMap_const_nil _
    refine ⟨?_, hcand, ?_⟩
    · rw [get_bounding_box_eq]
      simp only [Bool.not_eq_false', Bool.or_eq_true, decide_eq_true_eq]
      rcases hoff with h | h | h | h
      · exact Or.inl (Or.inl (Or.inl (lt_of_le_of_lt (min_le_l _ _) h)))
      · exact Or.inl (Or.inl (Or.inr (lt_of_le_of_lt (min_le_l _ _) h)))
      · exact Or.inl (Or.inr (lt_of_lt_of_le h (le_max_l _ 0)))
      · exact Or.inr (lt_of_lt_of_le h (le_max_l _ 0))
    · rw [rasterize_triangle, hcand]
      cases z_present <;> rfl

/-- Witness for C6: the concrete all-negative-x triangle `offTri` on
`exScreen`/`exConfig` yields an invalid box, an empty walk and zero
hits. -/
theorem off_screen_no_hits_witness :
    (get_bounding_box offTri exScreen exConfig).valid = false ∧
    candidates offTri exScreen exConfig = [] ∧
    rasterize_triangle offTri true exScreen exConfig = (0, []) :=
  (off_screen_no_hits offTri exScreen exConfig true).2
    ((off_screen_no_hits offTri exScreen exConfig true).1 (by decide))

/-- Decomposition of a nonnegative, grid-aligned sample coordinate into its
pixel index (arithmetic right shift by `r`) and subsample slot (remainder
divided by the stride): the pixel index is nonnegative and the slot lies in
`[0, 2^s)`. -/
theorem coord_decomp (x : Int) (r s : Nat) (hsr : s ≤ r)
    (hx0 : 0 ≤ x) (hxm : x % ((2 : Int) ^ (r - s)) = 0) :
    0 ≤ Int.fdiv x ((2 : Int) ^ r) ∧
    0 ≤ Int.tdiv (x - Int.fdiv x ((2 : Int) ^ r) * 2 ^ r) ((2 : Int) ^ (r - s)) ∧
    Int.tdiv (x - Int.fdiv x ((2 : Int) ^ r) * 2 ^ r) ((2 : Int) ^ (r - s)) <
      2 ^ s := by
  have hKpos : (0 : Int) < 2 ^ (r - s) := by positivity
  have hRpos : (0 : Int) < 2 ^ r := by positivity
  have hfd : Int.fdiv x ((2 : Int) ^ r) = x / 2 ^ r :=
    Int.fdiv_eq_ediv x (le_of_lt hRpos)
  rw [hfd]
  have hrem : x - x / 2 ^ r * 2 ^ r = x % 2 ^ r := by
    have := Int.ediv_add_emod x ((2 : Int) ^ r)
    linarith
  rw [hrem]
  have hremnn : 0 ≤ x % 2 ^ r := Int.emod_nonneg x (ne_of_gt hRpos)
  have hremlt : x % 2 ^ r < 2 ^ r := Int.emod_lt_of_pos x hRpos
  have htd : Int.tdiv (x % 2 ^ r) ((2 : Int) ^ (r - s)) = (x % 2 ^ r) / 2 ^ (r - s) :=
    Int.tdiv_eq_ediv hremnn (le_of_lt hKpos)
  rw [htd]
  refine ⟨Int.ediv_nonneg hx0 (le_of_lt hRpos),
    Int.ediv_nonneg hremnn (le_of_lt hKpos), ?_⟩
  rw [Int.ediv_lt_iff_lt_mul hKpos]
  have hsplit : (2 : Int) ^ s * 2 ^ (r - s) = 2 ^ r := by
    rw [← pow_add]
    congr 1
    omega
  rw [hsplit]
  exact hremlt

/-- Clipped lower-left corners are grid-aligned when the stride is the grid
cell width. -/
theorem clipped_lo_emod (v : Int) (r s : Nat) :
    max (floor_ss v r s) 0 % ((2 : Int) ^ (r - s)) = 0 := by
  unfold max
  split
  · exact floor_ss_emod v r s
  · exact Int.zero_emod _

/-- C10: under the documented preconditions every delivered fragment has a
nonnegative pixel location and subsample coordinates inside
`[0, 2^ss_w_lg2)` on each axis, because every visited nominal sample
coordinate is a nonnegative multiple of `ss_i`. -/
theorem fragment_coords_in_range (t : Triangle) (screen : Screen) (config : Config)
    (z_present : Bool)
    (hsr : config.ss_w_lg2 ≤ config.r_shift) (hr31 : config.r_shift < 31)
    (hssi : config.ss_i = 2 ^ (config.r_shift - config.ss_w_lg2))
    (hW : 0 ≤ screen.width) (hH : 0 ≤ screen.height)
    (fo : FragOut) (hfo : fo ∈ (rasterize_triangle t z_present screen config).2) :
    0 ≤ fo.hit_location.x ∧ 0 ≤ fo.hit_location.y ∧
    0 ≤ fo.subsample.x ∧ fo.subsample.x < 2 ^ config.ss_w_lg2 ∧
    0 ≤ fo.subsample.y ∧ fo.subsample.y < 2 ^ config.ss_w_lg2 := by
  have hstep : 0 < config.ss_i := by
    rw [hssi]; positivity
  simp only [rasterize_triangle] at hfo
  cases z_present with
  | false => simp at hfo
  | true =>
    simp only [if_pos] at hfo
    obtain ⟨s, hs, rfl⟩ := List.mem_map.mp hfo
    have hcand : s ∈ candidates t screen config := List.mem_of_mem_filter hs
    rw [candidates_eq, mem_pairs] at hcand
    obtain ⟨hx, hy⟩ := hcand
    rw [mem_sampleList hstep] at hx hy
    have hlox0 : (0 : Int) ≤ max (snapped_ll_x t config) 0 := le_max_r _ 0
    have hloy0 : (0 : Int) ≤ max (snapped_ll_y t config) 0 := le_max_r _ 0
    have hloxm : max (snapped_ll_x t config) 0 %
        ((2 : Int) ^ (config.r_shift - config.ss_w_lg2)) = 0 := clipped_lo_emod _ _ _
    have hloym : max (snapped_ll_y t config) 0 %
        ((2 : Int) ^ (config.r_shift - config.ss_w_lg2)) = 0 := clipped_lo_emod _ _ _
    rw [hssi] at hx hy
    have hsxm : s.x % ((2 : Int) ^ (config.r_shift - config.ss_w_lg2)) = 0 := by
      have h1 := Int.sub_emod s.x (max (snapped_ll_x t config) 0)
        ((2 : Int) ^ (config.r_shift - config.ss_w_lg2))
      rw [hx.2.2, hloxm, sub_zero, Int.emod_emod_of_dvd _ dvd_rfl] at h1
      exact h1.symm
    have hsym : s.y % ((2 : Int) ^ (config.r_shift - config.ss_w_lg2)) = 0 := by
      have h1 := Int.sub_emod s.y (max (snapped_ll_y t config) 0)
        ((2 : Int) ^ (config.r_shift - config.ss_w_lg2))
      rw [hy.2.2, hloym, sub_zero, Int.emod_emod_of_dvd _ dvd_rfl] at h1
      exact h1.symm
    have hsx0 : 0 ≤ s.x := le_trans hlox0 hx.1
    have hsy0 : 0 ≤ s.y := le_trans hloy0 hy.1
    have hdx := coord_decomp s.x config.r_shift config.ss_w_lg2 hsr hsx0 hsxm
    have hdy := coord_decomp s.y config.r_shift config.ss_w_lg2 hsr hsy0 hsym
    simp only [emit_fragment, hssi]
    exact ⟨hdx.1, hdy.1, hdx.2.1, hdx.2.2, hdy.2.1, hdy.2.2⟩

/-- Witness for C10: the fragment of the sample at the origin in the
concrete run of `exTri` on `exScreen`/`exConfig`. -/
theorem fragment_coords_in_range_witness :
    0 ≤ (emit_fragment exTri exConfig ⟨0, 0⟩).hit_location.x ∧
    0 ≤ (emit_fragment exTri exConfig ⟨0, 0⟩).hit_location.y ∧
    0 ≤ (emit_fragment exTri exConfig ⟨0, 0⟩).subsample.x ∧
    (emit_fragment exTri exConfig ⟨0, 0⟩).subsample.x < 2 ^ exConfig.ss_w_lg2 ∧
    0 ≤ (emit_fragment exTri exConfig ⟨0, 0⟩).subsample.y ∧
    (emit_fragment exTri exConfig ⟨0, 0⟩).subsample.y < 2 ^ exConfig.ss_w_lg2 :=
  fragment_coords_in_range exTri exScreen exConfig true (by decide) (by decide)
    (by decide) (by decide) (by decide) (emit_fragment exTri exConfig ⟨0, 0⟩)
    (by decide)

/-- Counterexample to C5 as stated: `shTriA` and `shTriB` share the edge
from `(0,0)` to `(0,4)` with opposite winding, both are clockwise (the
covered winding), yet the sample `(0,2)` on the shared boundary is covered
by BOTH triangles, because both triangles happen to place the shared edge
in a slot tested with the non-strict comparison. -/
theorem fill_rule_partition_cex :
    sample_test shTriA ⟨0, 2⟩ = true ∧ sample_test shTriB ⟨0, 2⟩ = true := by
  decide

/-- C5 amended: the exactly-one property holds when the shared edge sits in
tie-break-complementary slots of the two triangles: T1 = `(a, b, c)` holds
the edge `a → b` in the non-strictly tested slot 0→1, T2 = `(w, b, a)`
holds the reversed edge `b → a` in the strictly tested slot 1→2.  For T1
correctly wound and any sample strictly inside the shared segment, T1
covers the sample and T2 does not — exactly one of the two tests
succeeds. -/
theorem shared_edge_exactly_one (a b c w : Vertex) (s : Sample)
    (hcol : (a.x - s.x) * (b.y - s.y) - (b.x - s.x) * (a.y - s.y) = 0)
    (hu : 0 < (s.x - a.x) * (b.x - a.x) + (s.y - a.y) * (b.y - a.y))
    (hv : 0 < (b.x - s.x) * (b.x - a.x) + (b.y - s.y) * (b.y - a.y))
    (hA : (b.x - a.x) * (c.y - a.y) - (c.x - a.x) * (b.y - a.y) < 0) :
    sample_test ⟨a, b, c⟩ s = true ∧ sample_test ⟨w, b, a⟩ s = false := by
  have hsum : (a.x - s.x) * (b.y - s.y) - (b.x - s.x) * (a.y - s.y)
      + ((b.x - s.x) * (c.y - s.y) - (c.x - s.x) * (b.y - s.y))
      + ((c.x - s.x) * (a.y - s.y) - (a.x - s.x) * (c.y - s.y))
      = (b.x - a.x) * (c.y - a.y) - (c.x - a.x) * (b.y - a.y) := by ring
  have hkey : ((c.x - s.x) * (a.y - s.y) - (a.x - s.x) * (c.y - s.y)) *
        ((b.x - s.x) * (b.x - a.x) + (b.y - s.y) * (b.y - a.y))
      - ((b.x - s.x) * (c.y - s.y) - (c.x - s.x) * (b.y - s.y)) *
        ((s.x - a.x) * (b.x - a.x) + (s.y - a.y) * (b.y - a.y))
      = -((a.x - s.x) * (b.y - s.y) - (b.x - s.x) * (a.y - s.y)) *
        ((c.x - s.x) * (b.x - a.x) + (c.y - s.y) * (b.y - a.y)) := by ring
  have hz : -((a.x - s.x) * (b.y - s.y) - (b.x - s.x) * (a.y - s.y)) *
      ((c.x - s.x) * (b.x - a.x) + (c.y - s.y) * (b.y - a.y)) = 0 := by
    rw [hcol]; ring
  have hkey0 : ((c.x - s.x) * (a.y - s.y) - (a.x - s.x) * (c.y - s.y)) *
        ((b.x - s.x) * (b.x - a.x) + (b.y - s.y) * (b.y - a.y))
      = ((b.x - s.x) * (c.y - s.y) - (c.x - s.x) * (b.y - s.y)) *
        ((s.x - a.x) * (b.x - a.x) + (s.y - a.y) * (b.y - a.y)) := by
    linarith [hkey, hz]
  have hsum0 : (b.x - s.x) * (c.y - s.y) - (c.x - s.x) * (b.y - s.y)
      + ((c.x - s.x) * (a.y - s.y) - (a.x - s.x) * (c.y - s.y)) < 0 := by
    linarith [hsum, hcol, hA]
  have he1 : (b.x - s.x) * (c.y - s.y) - (c.x - s.x) * (b.y - s.y) < 0 := by
    by_contra hc
    push_neg at hc
    have h2 : (c.x - s.x) * (a.y - s.y) - (a.x - s.x) * (c.y - s.y) < 0 := by
      linarith
    have hneg := mul_neg_of_neg_of_pos h2 hv
    have hpos := mul_nonneg hc (le_of_lt hu)
    linarith [hkey0]
  have he2 : (c.x - s.x) * (a.y - s.y) - (a.x - s.x) * (c.y - s.y) < 0 := by
    have hDu := mul_neg_of_neg_of_pos he1 hu
    by_contra hc
    push_neg at hc
    have := mul_nonneg hc (le_of_lt hv)
    linarith [hkey0]
  constructor
  · simp only [sample_test, Bool.and_eq_true, decide_eq_true_eq]
    exact ⟨⟨le_of_eq hcol, he1⟩, le_of_lt he2⟩
  · have hz2 : ¬ ((b.x - s.x) * (a.y - s.y) - (a.x - s.x) * (b.y - s.y) < 0) := by
      intro hlt
      linarith [hcol]
    simp [sample_test, hz2]

/-- Witness for C5 (amended): the concrete pair `shTriA` / `shTriC`
(shared edge in complementary slots) at the boundary sample `(0,2)`:
`shTriA` covers it, `shTriC` does not. -/
theorem shared_edge_exactly_one_witness :
    sample_test shTriA ⟨0, 2⟩ = true ∧ sample_test shTriC ⟨0, 2⟩ = false :=
  shared_edge_exactly_one (mkv 0 0) (mkv 0 4) (mkv 4 0) (mkv (-4) 0) ⟨0, 2⟩
    (by decide) (by decide) (by decide) (by decide)

/-- With `ss_w_lg2 = 8` the final hash mask `0x00ff >> 8` is zero, so the
jitter vanishes for every sample. -/
theorem jitter_sample_zero (s : Sample) : jitter_sample s 8 = ⟨0, 0⟩ := by
  have hm : (255 : Nat) >>> 8 = 0 := by decide
  simp [jitter_sample, hash_40to8, hm, Nat.and_zero]

/-- With `ss_w_lg2 = 8` the jittered position equals the nominal one. -/
theorem jittered_sample_id (s : Sample) : jittered_sample s 8 = s := by
  cases s with
  | mk sx sy => simp [jittered_sample, jitter_sample_zero]

/-- Snapping a nonnegative value stays nonnegative. -/
theorem floor_ss_nonneg (v : Int) (r s : Nat) (h : 0 ≤ v) :
    0 ≤ floor_ss v r s := by
  rw [floor_ss_eq_mul]
  exact mul_nonneg (by positivity) (Int.ediv_nonneg h (by positivity))

/-- The source `max` returns its first argument when that dominates. -/
theorem max_eq_left_of_le (a b : Int) (h : b ≤ a) : max a b = a := by
  unfold max; split <;> omega

/-- The source `min` returns its first argument when that is dominated. -/
theorem min_eq_left_of_le (a b : Int) (h : a ≤ b) : min a b = a := by
  unfold min; split <;> omega

/-- A grid-aligned value below `v` is also below the snapped `v`. -/
theorem aligned_le_floor_ss (x v : Int) (r s : Nat) (hxv : x ≤ v)
    (hx : x % ((2 : Int) ^ (r - s)) = 0) : x ≤ floor_ss v r s := by
  by_contra hc
  push_neg at hc
  have hK : (0 : Int) < 2 ^ (r - s) := by positivity
  have hfm := floor_ss_emod v r s
  have hd : ((2 : Int) ^ (r - s)) ∣ (x - floor_ss v r s) := by
    apply Int.dvd_of_emod_eq_zero
    rw [Int.sub_emod, hx, hfm, sub_zero, Int.zero_emod]
  have hge := Int.le_of_dvd (by omega) hd
  have hlt := Int.emod_lt_of_pos v hK
  have hvf : v - floor_ss v r s < 2 ^ (r - s) := by
    unfold floor_ss; linarith
  linarith

/-- For a sample coordinate within the per-axis vertex range of a triangle
inside the screen, membership in the clipped snapped bounding-box walk is
the same as membership in the whole-screen walk at the same stride. -/
theorem mem_axis_iff (mn mx W x : Int) (r s : Nat)
    (hmn0 : 0 ≤ mn) (hmxW : mx ≤ W) (hlow : mn ≤ x) (hhigh : x ≤ mx) :
    (x ∈ sampleList (max (floor_ss mn r s) 0) (min (floor_ss mx r s) W)
        ((2 : Int) ^ (r - s)) ↔
     x ∈ sampleList 0 W ((2 : Int) ^ (r - s))) := by
  have hK : (0 : Int) < 2 ^ (r - s) := by positivity
  rw [mem_sampleList hK, mem_sampleList hK,
    max_eq_left_of_le _ _ (floor_ss_nonneg mn r s hmn0),
    min_eq_left_of_le _ _ (le_trans (floor_ss_le mx r s) hmxW)]
  have hfm := floor_ss_emod mn r s
  have hfl := floor_ss_le mn r s
  constructor
  · rintro ⟨h1, h2, h3⟩
    have hxm : x % ((2 : Int) ^ (r - s)) = 0 := by
      have h4 := Int.sub_emod x (floor_ss mn r s) ((2 : Int) ^ (r - s))
      rw [h3, hfm, sub_zero, Int.emod_emod_of_dvd _ dvd_rfl] at h4
      exact h4.symm
    refine ⟨by linarith [floor_ss_nonneg mn r s hmn0],
      by linarith [le_trans (floor_ss_le mx r s) hmxW], ?_⟩
    rw [sub_zero]
    exact hxm
  · rintro ⟨h1, h2, h3⟩
    rw [sub_zero] at h3
    refine ⟨le_trans hfl hlow, aligned_le_floor_ss x mx r s hhigh h3, ?_⟩
    rw [Int.sub_emod, h3, hfm, sub_zero, Int.zero_emod]

/-- Counterexample to C2 as stated: with the well-formed `exConfig`
(`ss_w_lg2 = 0`) and the fully-inside triangle `exTri`, the candidate
sample `(16, 0)` receives a nonzero jitter — `ss_w_lg2 = 0` yields the
full 8-bit hash mask `0x00ff >> 0`, not a zero jitter (the mask collapses
at `ss_w_lg2 = 8`). -/
theorem jitter_at_zero_cex :
    exConfig.ss_w_lg2 = 0 ∧
    exConfig.ss_i = 2 ^ (exConfig.r_shift - exConfig.ss_w_lg2) ∧
    triangle_in_screen exTri exScreen ∧
    Sample.mk 16 0 ∈ candidates exTri exScreen exConfig ∧
    jittered_sample ⟨16, 0⟩ exConfig.ss_w_lg2 ≠ ⟨16, 0⟩ := by
  decide

/-- C2 amended: with a well-formed Config whose `ss_w_lg2` is 8 (the value
at which the hash mask `0x00ff >> ss_w_lg2` collapses, so every candidate
receives jitter 0) and a triangle fully inside the screen, the hit count
of `rasterize_triangle` equals the brute-force count of subsample-grid
points of the screen passing the edge test. -/
theorem rasterize_count_eq_brute (t : Triangle) (screen : Screen) (config : Config)
    (z_present : Bool) (sp0 : Sample)
    (hss : config.ss_w_lg2 = 8) (hsr : config.ss_w_lg2 ≤ config.r_shift)
    (hssi : config.ss_i = 2 ^ (config.r_shift - config.ss_w_lg2))
    (hin : triangle_in_screen t screen) :
    jittered_sample sp0 config.ss_w_lg2 = sp0 ∧
    (rasterize_triangle t z_present screen config).1 =
      (brute_count t screen config : Int) := by
  obtain ⟨h0x, h0X, h0y, h0Y, h1x, h1X, h1y, h1Y, h2x, h2X, h2y, h2Y⟩ := hin
  have hjz : ∀ sp : Sample, jittered_sample sp config.ss_w_lg2 = sp := by
    intro sp; rw [hss]; exact jittered_sample_id sp
  refine ⟨hjz sp0, ?_⟩
  have hstep : 0 < config.ss_i := by
    rw [hssi]; positivity
  have hmn0x : 0 ≤ min (min t.v0.x t.v1.x) t.v2.x := by
    unfold min; split_ifs <;> omega
  have hmxWx : max (max t.v0.x t.v1.x) t.v2.x ≤ screen.width := by
    unfold max; split_ifs <;> omega
  have hmn0y : 0 ≤ min (min t.v0.y t.v1.y) t.v2.y := by
    unfold min; split_ifs <;> omega
  have hmxWy : max (max t.v0.y t.v1.y) t.v2.y ≤ screen.height := by
    unfold max; split_ifs <;> omega
  have hfilter : (candidates t screen config).filter
      (fun sp => sample_test t (jittered_sample sp config.ss_w_lg2)) =
      (candidates t screen config).filter (fun sp => sample_test t sp) := by
    apply List.filter_congr
    intro a _
    rw [hjz a]
  have hnd1 : ((candidates t screen config).filter
      (fun sp => sample_test t sp)).Nodup := by
    rw [candidates_eq]
    exact (pairs_nodup _ _ (sampleList_nodup _ _ _ hstep)
      (sampleList_nodup _ _ _ hstep)).filter _
  have hnd2 : (((sampleList 0 screen.width config.ss_i).flatMap (fun sx =>
      (sampleList 0 screen.height config.ss_i).map (fun sy =>
        Sample.mk sx sy))).filter (fun sp => sample_test t sp)).Nodup :=
    (pairs_nodup _ _ (sampleList_nodup _ _ _ hstep)
      (sampleList_nodup _ _ _ hstep)).filter _
  have hset : ((candidates t screen config).filter
        (fun sp => sample_test t sp)).toFinset =
      (((sampleList 0 screen.width config.ss_i).flatMap (fun sx =>
        (sampleList 0 screen.height config.ss_i).map (fun sy =>
          Sample.mk sx sy))).filter (fun sp => sample_test t sp)).toFinset := by
    apply Finset.ext
    intro sp
    simp only [List.mem_toFinset, List.mem_filter, candidates_eq, mem_pairs]
    unfold snapped_ll_x snapped_ur_x snapped_ll_y snapped_ur_y
    rw [hssi]
    constructor
    · rintro ⟨⟨hmx, hmy⟩, hp⟩
      have hull := sample_test_in_hull t sp hp
      exact ⟨⟨(mem_axis_iff _ _ _ _ _ _ hmn0x hmxWx hull.1 hull.2.1).mp hmx,
        (mem_axis_iff _ _ _ _ _ _ hmn0y hmxWy hull.2.2.1 hull.2.2.2).mp hmy⟩, hp⟩
    · rintro ⟨⟨hmx, hmy⟩, hp⟩
      have hull := sample_test_in_hull t sp hp
      exact ⟨⟨(mem_axis_iff _ _ _ _ _ _ hmn0x hmxWx hull.1 hull.2.1).mpr hmx,
        (mem_axis_iff _ _ _ _ _ _ hmn0y hmxWy hull.2.2.1 hull.2.2.2).mpr hmy⟩, hp⟩
  have hlen : ((candidates t screen config).filter
        (fun sp => sample_test t sp)).length =
      (((sampleList 0 screen.width config.ss_i).flatMap (fun sx =>
        (sampleList 0 screen.height config.ss_i).map (fun sy =>
          Sample.mk sx sy))).filter (fun sp => sample_test t sp)).length := by
    rw [← List.toFinset_card_of_nodup hnd1, ← List.toFinset_card_of_nodup hnd2, hset]
  have hlhs : (rasterize_triangle t z_present screen config).1 =
      (((candidates t screen config).filter
        (fun sp => sample_test t (jittered_sample sp config.ss_w_lg2))).length : Int) :=
    rfl
  rw [hlhs, hfilter]
  unfold brute_count
  exact_mod_cast congrArg Nat.cast hlen

/-- Witness for C2 (amended) on the concrete run of `jwTri` on
`jwScreen`/`jwConfig` (`ss_w_lg2 = 8`), at the probe sample `(5, 9)`. -/
theorem rasterize_count_eq_brute_witness :
    jittered_sample ⟨5, 9⟩ jwConfig.ss_w_lg2 = ⟨5, 9⟩ ∧
    (rasterize_triangle jwTri false jwScreen jwConfig).1 =
      (brute_count jwTri jwScreen jwConfig : Int) :=
  rasterize_count_eq_brute jwTri jwScreen jwConfig false ⟨5, 9⟩ (by decide)
    (by decide) (by decide) (by decide)

end Rasterizer
